import Mathlib

/-!
# Agent-Bridge coordination core: a shallow embedding

Shallow embedding of the coordination core of the Agent-Bridge server
(`src/index.ts`, `src/contracts.ts`): the event broadcaster's circular
replay buffer, the TTL lock registry, the message store with
acknowledgment, and the contract store with append-only history.

Modelling conventions:
* Times are natural numbers of milliseconds since the epoch
  (`Date.getTime()`); a lock `ttl` is a natural number of seconds, and
  `expiresAt = createdAt + ttl * 1000` as in the source.
* JavaScript `Map`s keyed by strings become association lists
  (`List (String × _)`) looked up with `List.lookup`; `Map.set` on an
  existing key is an in-place replacement, on a fresh key an append.
* `undefined` optional fields become `Option`; fields that may be
  `string | null | undefined` become `Option (Option _)`.
* JavaScript truthiness of an optional string (`!contract.relatedMessageId`)
  is false exactly for `undefined` and for the empty string.
-/

namespace AgentBridge

/-- The events pushed through the broadcaster, one constructor per
`pushEvent` call site in `src/index.ts`, carrying the fields of the
emitted payload that the specification talks about. -/
inductive Ev
  | lockExpired (resource holder : String)
  | lockCreated (resource holder : String) (ttl : Nat) (expiresAt : Nat)
  | lockRenewed (resource holder : String) (ttl : Nat) (expiresAt : Nat)
  | lockReleased (resource holder : String)
  | messagePublished (messageId recipient : String)
      (sender contractId : Option String)
  | messageAcknowledged (messageId recipient : String)
  | contractCreated (contractId : String)
  | contractUpdated (contractId : String)
  | contractMessageLinked (contractId messageId : String)
deriving DecidableEq

/-! ## Event broadcaster: circular replay buffer (`src/index.ts`) -/

/-- The constant `EVENT_HISTORY_LIMIT` from `src/index.ts`. -/
def EVENT_HISTORY_LIMIT : Nat := 100

/-- The replay buffer state: the array `eventHistory` together with the
write cursor `eventHistoryIndex`.  Polymorphic in the event payload,
since the buffer logic never inspects it. -/
structure EventBuffer (α : Type) where
  history : List α
  index : Nat
deriving DecidableEq

/-- The initial (empty) buffer. -/
def EventBuffer.empty {α : Type} : EventBuffer α := ⟨[], 0⟩

/-- The function `pushEvent` from `src/index.ts`: append while the buffer is not yet
full, otherwise overwrite the slot at `eventHistoryIndex` and advance the
cursor modulo the capacity. -/
def pushEventBuf {α : Type} (b : EventBuffer α) (e : α) : EventBuffer α :=
  if b.history.length < EVENT_HISTORY_LIMIT then
    { b with history := b.history ++ [e] }
  else
    { history := b.history.set b.index e,
      index := (b.index + 1) % EVENT_HISTORY_LIMIT }

/-- Push a whole sequence of events, oldest first. -/
def pushEventsBuf {α : Type} (b : EventBuffer α) (es : List α) : EventBuffer α :=
  es.foldl pushEventBuf b

/-- The function `sendEventHistory` from `src/index.ts`: the replay a fresh subscriber
receives before any live event.  When the buffer is full the code starts
the scan at `(eventHistoryIndex + 1) % EVENT_HISTORY_LIMIT`. -/
def sendEventHistory {α : Type} (b : EventBuffer α) : List α :=
  if b.history.length < EVENT_HISTORY_LIMIT then
    b.history
  else
    let oldestIndex := (b.index + 1) % EVENT_HISTORY_LIMIT
    (List.range EVENT_HISTORY_LIMIT).filterMap
      (fun i => b.history.get? ((oldestIndex + i) % EVENT_HISTORY_LIMIT))

/-! ## Generic association-list operations (JavaScript `Map` semantics)

A JavaScript `Map` keyed by strings is modelled as an association list in
insertion order: `Map.get` is `List.lookup`, `Map.set` replaces in place
when the key exists and appends otherwise, `Map.delete` removes the
entry, and iteration follows list order. -/

/-- JavaScript `Map.set`: replace in place if the key is present, append otherwise. -/
def mapSet {β : Type} (l : List (String × β)) (k : String) (v : β) :
    List (String × β) :=
  if (l.lookup k).isSome then
    l.map (fun p => if p.1 = k then (p.1, v) else p)
  else l ++ [(k, v)]

/-- JavaScript `Map.delete`. -/
def mapDelete {β : Type} (l : List (String × β)) (k : String) :
    List (String × β) :=
  l.filter (fun p => p.1 != k)

/-! ## Lock registry (`src/index.ts`) -/

/-- The record `ResourceLock` from `src/index.ts`; `ttl` in seconds, `createdAt` in
milliseconds. -/
structure ResourceLock where
  resource : String
  holder : String
  ttl : Nat
  createdAt : Nat
deriving DecidableEq

/-- The lock store `locks : Map<string, ResourceLock>`. -/
abbrev Locks := List (String × ResourceLock)

/-- The predicate `isLockExpired`: `now > lock.createdAt.getTime() + lock.ttl * 1000`. -/
def isLockExpired (now : Nat) (lock : ResourceLock) : Bool :=
  decide (lock.createdAt + lock.ttl * 1000 < now)

/-- The sweep `cleanExpiredLocks`: remove every expired lock and emit a
`lock.expired` event for each removed entry, in iteration order.  Returns
the cleaned store and the emitted events. -/
def cleanExpiredLocks (now : Nat) (locks : Locks) : Locks × List Ev :=
  (locks.filter (fun p => !isLockExpired now p.2),
   (locks.filter (fun p => isLockExpired now p.2)).map
     (fun p => Ev.lockExpired p.1 p.2.holder))

/-! ## Message store (`src/index.ts`) -/

/-- The record `Message` from `src/index.ts` (the contract-aware version). -/
structure Message where
  id : String
  recipient : String
  content : String
  timestamp : Nat
  acknowledged : Bool
  sender : Option String
  contractId : Option String
deriving DecidableEq

/-- Route `GET /fetch_messages/:recipient`: all messages indexed under the
recipient (publish order), filtered to the non-acknowledged ones.  The
`messagesByRecipient` index holds exactly the published messages with
that recipient, in publish order, so it is the filter of the message
list. -/
def fetchPending (msgs : List Message) (recipient : String) : List Message :=
  (msgs.filter (fun m => m.recipient == recipient)).filter
    (fun m => !m.acknowledged)

/-- One iteration of the `ids.forEach` loop in `POST /ack_message`: look
the id up (the `messagesById` index point-lookup; message ids are
globally unique, so this is the message with that id), and if present and
not yet acknowledged, mark it, count it and emit `message.acknowledged`. -/
def ackStep (acc : List Message × Nat × List Ev) (i : String) :
    List Message × Nat × List Ev :=
  match acc.1.find? (fun m => m.id == i) with
  | some m =>
      if !m.acknowledged then
        (acc.1.map (fun x =>
            if x.id = i then { x with acknowledged := true } else x),
         acc.2.1 + 1,
         acc.2.2 ++ [Ev.messageAcknowledged m.id m.recipient])
      else acc
  | none => acc

/-- Route `POST /ack_message`: fold `ackStep` over the requested ids; returns
the new message list, `acknowledgedCount`, and the emitted events. -/
def ackMessages (msgs : List Message) (ids : List String) :
    List Message × Nat × List Ev :=
  ids.foldl ackStep (msgs, 0, [])

/-! ## Contract store (`src/contracts.ts`) -/

inductive ContractStatus
  | proposed | accepted | inProgress | completed | failed | cancelled
deriving DecidableEq

inductive ContractPriority
  | low | medium | high | critical
deriving DecidableEq

/-- Contract metadata `Record<string, unknown>`: an association list with
opaque (string-modelled) values. -/
abbrev Metadata := List (String × String)

structure ContractHistoryEntry where
  id : String
  timestamp : Nat
  actor : String
  status : ContractStatus
  note : Option String
deriving DecidableEq

structure TaskContract where
  id : String
  title : String
  description : Option String
  initiator : String
  owner : Option String
  status : ContractStatus
  priority : ContractPriority
  tags : List String
  files : List String
  createdAt : Nat
  updatedAt : Nat
  dueAt : Option Nat
  metadata : Metadata
  relatedMessageId : Option String
  history : List ContractHistoryEntry
deriving DecidableEq

/-- The `contractCreateSchema` output, after Zod defaulting (`status`,
`priority`, `tags`, `files` already defaulted). -/
structure ContractCreateInput where
  title : String
  description : Option String
  initiator : String
  owner : Option String
  status : ContractStatus
  priority : ContractPriority
  tags : List String
  files : List String
  dueAt : Option Nat
  metadata : Metadata
  relatedMessageId : Option String
deriving DecidableEq

/-- The `contractUpdateSchema` output.  A field that may be
`value | null | undefined` is an `Option (Option _)`: the outer layer is
presence, the inner layer is `null`. -/
structure ContractUpdateInput where
  actor : String
  status : Option ContractStatus
  owner : Option (Option String)
  note : Option String
  metadata : Option Metadata
  tags : Option (List String)
  files : Option (List String)
  dueAt : Option (Option Nat)
deriving DecidableEq

/-- JavaScript truthiness of an optional string: `undefined` and `""`
are falsy, everything else truthy. -/
def strTruthy : Option String → Bool
  | none => false
  | some s => s != ""

/-- The contract store `contracts : Map<string, TaskContract>`. -/
abbrev ContractStore := List (String × TaskContract)

/-- The function `createContract` from `src/contracts.ts`: the generated ids and the
current time are passed explicitly (`generateId()` / `new Date()`). -/
def createContract (input : ContractCreateInput)
    (entryId contractId : String) (now : Nat) : TaskContract :=
  { id := contractId
    title := input.title
    description := input.description
    initiator := input.initiator
    owner := input.owner
    status := input.status
    priority := input.priority
    tags := input.tags
    files := input.files
    createdAt := now
    updatedAt := now
    dueAt := input.dueAt
    metadata := input.metadata
    relatedMessageId := input.relatedMessageId
    history := [{ id := entryId, timestamp := now, actor := input.initiator,
                  status := input.status, note := some "Contract created" }] }

/-- The function `getContract`. -/
def getContract (store : ContractStore) (id : String) : Option TaskContract :=
  store.lookup id

/-- JavaScript object spread `{...a, ...b}` on string-keyed records,
modelled on association lists: keys of `b` overwrite same-named keys of
`a`, other keys of `a` survive. -/
def spreadMerge (a b : Metadata) : Metadata :=
  a.filter (fun p => (b.lookup p.1).isNone) ++ b

/-- The field mutations `updateContract` performs on the looked-up
contract, in source order.  `statusChanged` is
`update.status && update.status !== contract.status` (statuses are
non-empty enum strings, so truthiness is presence); the history entry is
appended only when the status changed or a truthy (non-empty) note was
supplied, and records the status after the change and the supplied note. -/
def applyUpdate (c : TaskContract) (u : ContractUpdateInput)
    (entryId : String) (now : Nat) : TaskContract :=
  let statusChanged := match u.status with
    | some st => st != c.status
    | none => false
  let newStatus := match u.status with
    | some st => st
    | none => c.status
  let newOwner := match u.owner with
    | some o => o
    | none => c.owner
  let newTags := match u.tags with
    | some t => t
    | none => c.tags
  let newFiles := match u.files with
    | some f => f
    | none => c.files
  let newMetadata := match u.metadata with
    | some m => spreadMerge c.metadata m
    | none => c.metadata
  let newDueAt := match u.dueAt with
    | some d => d
    | none => c.dueAt
  let historyTail : List ContractHistoryEntry :=
    if statusChanged || strTruthy u.note then
      [{ id := entryId, timestamp := now, actor := u.actor,
         status := newStatus, note := u.note }]
    else []
  { c with
    status := newStatus
    owner := newOwner
    tags := newTags
    files := newFiles
    metadata := newMetadata
    dueAt := newDueAt
    updatedAt := now
    history := c.history ++ historyTail }

/-- The function `updateContract` from `src/contracts.ts`: `undefined` when the id is
unknown; otherwise the updated contract, mutated in place in the store. -/
def updateContract (store : ContractStore) (id : String)
    (u : ContractUpdateInput) (entryId : String) (now : Nat) :
    Option (TaskContract × ContractStore) :=
  match store.lookup id with
  | none => none
  | some c =>
      let c' := applyUpdate c u entryId now
      some (c', store.map (fun p => if p.1 = id then (p.1, c') else p))

/-- The function `attachMessageToContract` from `src/contracts.ts`: a no-op when the
contract is missing or its `relatedMessageId` is already truthy;
otherwise set `relatedMessageId` in place.  The function has no access to
the event broadcaster, so it emits no event in any case. -/
def attachMessageToContract (store : ContractStore)
    (contractId messageId : String) : ContractStore :=
  match store.lookup contractId with
  | none => store
  | some c =>
      if !strTruthy c.relatedMessageId then
        store.map (fun p =>
          if p.1 = contractId then
            (p.1, { c with relatedMessageId := some messageId })
          else p)
      else store

/-! ## Coordination façade (`src/index.ts` routes) -/

/-- Zod validation of `contractCreateSchema` (the length bound on
`description` is not modelled; no claim depends on it). -/
def validCreateInput (i : ContractCreateInput) : Bool :=
  i.title != "" && i.initiator != "" &&
  (match i.owner with | some o => o != "" | none => true) &&
  i.tags.all (fun t => t != "") && i.files.all (fun f => f != "") &&
  (match i.relatedMessageId with | some _ => true | none => true)

/-- The `superRefine` on `contractUpdateSchema`: at least one updatable
field present. -/
def hasUpdatableField (u : ContractUpdateInput) : Bool :=
  u.status.isSome || u.owner.isSome || u.note.isSome || u.metadata.isSome ||
  u.tags.isSome || u.files.isSome || u.dueAt.isSome

/-- Zod validation of `contractUpdateSchema`. -/
def validUpdateInput (u : ContractUpdateInput) : Bool :=
  u.actor != "" &&
  (match u.owner with | some (some o) => o != "" | _ => true) &&
  (match u.tags with | some t => t.all (fun x => x != "") | none => true) &&
  (match u.files with | some f => f.all (fun x => x != "") | none => true) &&
  hasUpdatableField u

/-- Zod validation of the `publish_message` body (`publishMessageSchema`
with its `superRefine`): non-empty recipient and content, optional
non-empty sender and contractId, an optionally valid inline contract, and
not both `contract` and `contractId`. -/
def validPublish (recipient content : String)
    (sender contractId : Option String)
    (contract : Option ContractCreateInput) : Bool :=
  recipient != "" && content != "" &&
  (match sender with | some x => x != "" | none => true) &&
  (match contractId with | some x => x != "" | none => true) &&
  (match contract with | some i => validCreateInput i | none => true) &&
  !(contract.isSome && contractId.isSome)

/-- Zod validation of `lockResourceSchema`. -/
def validLockInput (resource holder : String) (ttl : Nat) : Bool :=
  resource != "" && holder != "" && decide (0 < ttl)

/-- Zod validation of `renewLockSchema`. -/
def validRenewInput (resource : String) (ttl : Nat) : Bool :=
  resource != "" && decide (0 < ttl)

/-- The structured responses of the façade routes; the four error
constructors are the 400/404/409/410 failure responses. -/
inductive Resp
  | publishOk (messageId : String) (contractId : Option String)
  | fetchOk (msgs : List Message)
  | ackOk (acknowledgedCount : Nat)
  | contractOk (c : TaskContract)
  | lockOk (lock : ResourceLock)
  | unlockOk
  | errBadRequest
  | errNotFound
  | errConflict
  | errGone
deriving DecidableEq

/-- Whether a response is a failure response. -/
def Resp.isError : Resp → Bool
  | .errBadRequest => true
  | .errNotFound => true
  | .errConflict => true
  | .errGone => true
  | _ => false

/-- The in-memory stores of the server. -/
structure BridgeState where
  messages : List Message
  locks : Locks
  contracts : ContractStore
deriving DecidableEq

/-- The external operations of the façade.  Ids produced by
`generateId()` during the handling of a request are carried as explicit
operation arguments. -/
inductive Op
  | publishMessage (recipient content : String) (sender : Option String)
      (contractId : Option String) (contract : Option ContractCreateInput)
      (msgId entryId newContractId : String)
  | fetchMessages (recipient : String)
  | ackMessage (ids : List String)
  | createContractOp (input : ContractCreateInput) (entryId newContractId : String)
  | getContractOp (id : String)
  | updateContractOp (id : String) (u : ContractUpdateInput) (entryId : String)
  | lockResource (resource holder : String) (ttl : Nat)
  | renewLock (resource : String) (ttl : Nat)
  | unlockResource (resource : String)
deriving DecidableEq

/-- One façade request, handled at time `now`: the response, the new
state, and the events pushed through the broadcaster, in emission
order.  Each arm mirrors the corresponding route handler in
`src/index.ts`. -/
def step (s : BridgeState) (now : Nat) : Op → Resp × BridgeState × List Ev
  | .publishMessage recipient content sender contractId contract msgId entryId cid =>
      if !(validPublish recipient content sender contractId contract) then
        (.errBadRequest, s, [])
      else if contractId.isSome && (getContract s.contracts (contractId.getD "")).isNone then
        (.errNotFound, s, [])
      else
        let created := match contract with
          | some inp => some (createContract inp entryId cid now)
          | none => none
        let contracts1 := match created with
          | some c => mapSet s.contracts c.id c
          | none => s.contracts
        let evs1 := match created with
          | some c => [Ev.contractCreated c.id]
          | none => []
        let resolvedContractId := match created with
          | some c => some c.id
          | none => contractId
        let message : Message :=
          { id := msgId, recipient := recipient, content := content,
            timestamp := now, acknowledged := false, sender := sender,
            contractId := resolvedContractId }
        let messages1 := s.messages ++ [message]
        let contracts2 := match resolvedContractId with
          | some rc => attachMessageToContract contracts1 rc msgId
          | none => contracts1
        let evs2 := match resolvedContractId with
          | some rc => [Ev.contractMessageLinked rc msgId]
          | none => []
        (.publishOk msgId resolvedContractId,
         { s with messages := messages1, contracts := contracts2 },
         evs1 ++ evs2 ++ [Ev.messagePublished msgId recipient sender resolvedContractId])
  | .fetchMessages recipient =>
      if recipient = "" then (.errBadRequest, s, [])
      else (.fetchOk (fetchPending s.messages recipient), s, [])
  | .ackMessage ids =>
      let r := ackMessages s.messages ids
      (.ackOk r.2.1, { s with messages := r.1 }, r.2.2)
  | .createContractOp input entryId cid =>
      if !validCreateInput input then (.errBadRequest, s, [])
      else
        let c := createContract input entryId cid now
        (.contractOk c, { s with contracts := mapSet s.contracts c.id c },
         [Ev.contractCreated c.id])
  | .getContractOp id =>
      if id = "" then (.errBadRequest, s, [])
      else
        match getContract s.contracts id with
        | none => (.errNotFound, s, [])
        | some c => (.contractOk c, s, [])
  | .updateContractOp id u entryId =>
      if id = "" ∨ validUpdateInput u = false then (.errBadRequest, s, [])
      else
        match updateContract s.contracts id u entryId now with
        | none => (.errNotFound, s, [])
        | some (c', store') =>
            (.contractOk c', { s with contracts := store' },
             [Ev.contractUpdated c'.id])
  | .lockResource resource holder ttl =>
      if !(validLockInput resource holder ttl) then
        (.errBadRequest, s, [])
      else
        let cleaned := cleanExpiredLocks now s.locks
        if (cleaned.1.lookup resource).isSome then
          (.errConflict, { s with locks := cleaned.1 }, cleaned.2)
        else
          let lock : ResourceLock :=
            { resource := resource, holder := holder, ttl := ttl, createdAt := now }
          (.lockOk lock, { s with locks := mapSet cleaned.1 resource lock },
           cleaned.2 ++ [Ev.lockCreated resource holder ttl (lock.createdAt + lock.ttl * 1000)])
  | .renewLock resource ttl =>
      if !(validRenewInput resource ttl) then (.errBadRequest, s, [])
      else
        let cleaned := cleanExpiredLocks now s.locks
        match cleaned.1.lookup resource with
        | none => (.errNotFound, { s with locks := cleaned.1 }, cleaned.2)
        | some lk =>
            if isLockExpired now lk then
              (.errGone, { s with locks := mapDelete cleaned.1 resource },
               cleaned.2 ++ [Ev.lockExpired resource lk.holder])
            else
              let lk' := { lk with ttl := ttl, createdAt := now }
              (.lockOk lk',
               { s with locks := cleaned.1.map (fun p =>
                   if p.1 = resource then (p.1, lk') else p) },
               cleaned.2 ++ [Ev.lockRenewed resource lk.holder ttl (lk'.createdAt + lk'.ttl * 1000)])
  | .unlockResource resource =>
      if resource = "" then (.errBadRequest, s, [])
      else
        let cleaned := cleanExpiredLocks now s.locks
        match cleaned.1.lookup resource with
        | none => (.errNotFound, { s with locks := cleaned.1 }, cleaned.2)
        | some lk =>
            (.unlockOk, { s with locks := mapDelete cleaned.1 resource },
             cleaned.2 ++ [Ev.lockReleased resource lk.holder])

/-- Run a sequence of timed operations, keeping only the state. -/
def runState (s : BridgeState) : List (Nat × Op) → BridgeState
  | [] => s
  | (t, o) :: rest => runState (step s t o).2.1 rest

/-- Freshness of the generated message id of a publish operation with
respect to the current state (`generateId()` never collides with an
existing id: the data-model invariant that message ids are globally
unique). -/
def opFresh (s : BridgeState) : Op → Bool
  | .publishMessage _ _ _ _ _ msgId _ _ =>
      !(s.messages.map Message.id).contains msgId
  | _ => true

/-- Freshness of every generated message id along a run. -/
def runFresh (s : BridgeState) : List (Nat × Op) → Bool
  | [] => true
  | (t, o) :: rest => opFresh s o && runFresh (step s t o).2.1 rest

/-! ## Association-list lemmas -/

theorem lookup_mem {β : Type} {l : List (String × β)} {k : String} {v : β}
    (h : l.lookup k = some v) : (k, v) ∈ l := by
  induction l with
  | nil => simp [List.lookup] at h
  | cons a t ih =>
      obtain ⟨a1, a2⟩ := a
      by_cases hk : k = a1
      · subst hk
        simp [List.lookup] at h
        subst h
        exact List.mem_cons_self _ _
      · have hb : (k == a1) = false := by simp [hk]
        simp only [List.lookup, hb] at h
        exact List.mem_cons_of_mem _ (ih h)

theorem lookup_filter_keep {β : Type} {p : String × β → Bool}
    {l : List (String × β)} {k : String} {v : β}
    (hl : l.lookup k = some v) (hp : p (k, v) = true) :
    (l.filter p).lookup k = some v := by
  induction l with
  | nil => simp [List.lookup] at hl
  | cons a t ih =>
      obtain ⟨a1, a2⟩ := a
      rw [List.filter_cons]
      by_cases hk : k = a1
      · subst hk
        simp [List.lookup] at hl
        subst hl
        simp [hp, List.lookup]
      · have hb : (k == a1) = false := by simp [hk]
        simp only [List.lookup, hb] at hl
        cases hpa : p (a1, a2)
        · simpa using ih hl
        · simpa [List.lookup, hb] using ih hl

theorem lookup_filter_of_none {β : Type} {p : String × β → Bool}
    {l : List (String × β)} {k : String}
    (hl : l.lookup k = none) : (l.filter p).lookup k = none := by
  induction l with
  | nil => simp [List.lookup]
  | cons a t ih =>
      obtain ⟨a1, a2⟩ := a
      rw [List.filter_cons]
      by_cases hk : k = a1
      · subst hk
        simp [List.lookup] at hl
      · have hb : (k == a1) = false := by simp [hk]
        simp only [List.lookup, hb] at hl
        cases hpa : p (a1, a2)
        · simpa using ih hl
        · simpa [List.lookup, hb] using ih hl

theorem lookup_filter_pred {β : Type} {p : String × β → Bool}
    {l : List (String × β)} {k : String} {v : β}
    (h : (l.filter p).lookup k = some v) : p (k, v) = true := by
  have hm : (k, v) ∈ l.filter p := lookup_mem h
  exact (List.mem_filter.mp hm).2

theorem lookup_notMem_keys {β : Type} {l : List (String × β)} {k : String}
    (h : k ∉ l.map Prod.fst) : l.lookup k = none := by
  induction l with
  | nil => simp [List.lookup]
  | cons a t ih =>
      obtain ⟨a1, a2⟩ := a
      simp only [List.map, List.mem_cons] at h
      push_neg at h
      have hb : (k == a1) = false := by simp [h.1]
      simp only [List.lookup, hb]
      exact ih h.2

theorem keys_filter_subset {β : Type} {p : String × β → Bool}
    {l : List (String × β)} {k : String}
    (h : k ∈ (l.filter p).map Prod.fst) : k ∈ l.map Prod.fst := by
  rcases List.mem_map.mp h with ⟨q, hq, hq1⟩
  exact List.mem_map.mpr ⟨q, List.mem_of_mem_filter hq, hq1⟩

theorem lookup_filter_nodup {β : Type} {p : String × β → Bool}
    {l : List (String × β)} {k : String} {v : β}
    (hnd : (l.map Prod.fst).Nodup) (hl : l.lookup k = some v) :
    (l.filter p).lookup k = if p (k, v) then some v else none := by
  cases hp : p (k, v)
  · simp only [if_false, Bool.false_eq_true]
    induction l with
    | nil => simp [List.lookup] at hl
    | cons a t ih =>
        obtain ⟨a1, a2⟩ := a
        simp only [List.map, List.nodup_cons] at hnd
        rw [List.filter_cons]
        by_cases hk : k = a1
        · subst hk
          simp [List.lookup] at hl
          subst hl
          have hnone : (List.filter p t).lookup k = none := by
            apply lookup_notMem_keys
            intro hmem
            exact hnd.1 (keys_filter_subset hmem)
          cases hpa : p (k, a2)
          · simpa using hnone
          · rw [hp] at hpa
            exact absurd hpa (by simp)
        · have hb : (k == a1) = false := by simp [hk]
          simp only [List.lookup, hb] at hl
          cases hpa : p (a1, a2)
          · simpa using ih hnd.2 hl
          · simpa [List.lookup, hb] using ih hnd.2 hl
  · simp [hp, lookup_filter_keep hl hp]

theorem lookup_filter_drop {β : Type} {p : String × β → Bool}
    {l : List (String × β)} {k : String} {v : β}
    (hnd : (l.map Prod.fst).Nodup) (hl : l.lookup k = some v)
    (hp : p (k, v) = false) : (l.filter p).lookup k = none := by
  have h := lookup_filter_nodup (p := p) hnd hl
  rw [hp] at h
  exact h.trans (by simp)

theorem lookup_mapDelete_self {β : Type} (l : List (String × β)) (k : String) :
    (mapDelete l k).lookup k = none := by
  apply lookup_notMem_keys
  intro hmem
  rcases List.mem_map.mp hmem with ⟨q, hq, hq1⟩
  have := (List.mem_filter.mp hq).2
  rw [hq1] at this
  simp at this

theorem lookup_append {β : Type} (l1 l2 : List (String × β)) (k : String) :
    (l1 ++ l2).lookup k =
      match l1.lookup k with
      | some v => some v
      | none => l2.lookup k := by
  induction l1 with
  | nil => simp [List.lookup]
  | cons a t ih =>
      obtain ⟨a1, a2⟩ := a
      by_cases hk : k = a1
      · subst hk
        simp [List.lookup]
      · have hb : (k == a1) = false := by simp [hk]
        simp only [List.cons_append, List.lookup, hb]
        exact ih

theorem lookup_map_replace_self {β : Type} (l : List (String × β))
    (k : String) (v : β) :
    (l.map (fun p => if p.1 = k then (p.1, v) else p)).lookup k =
      (l.lookup k).map (fun _ => v) := by
  induction l with
  | nil => simp [List.lookup]
  | cons a t ih =>
      obtain ⟨a1, a2⟩ := a
      rw [List.map_cons]
      by_cases ha : a1 = k
      · subst ha
        have hhead : (if (a1, a2).1 = a1 then ((a1, a2).1, v) else (a1, a2)) =
            (a1, v) := by simp
        rw [hhead]
        have hb : (a1 == a1) = true := by simp
        simp [List.lookup, hb]
      · have hhead : (if (a1, a2).1 = k then ((a1, a2).1, v) else (a1, a2)) =
            (a1, a2) := by simp [ha]
        rw [hhead]
        have hb : (k == a1) = false := by simp [Ne.symm ha]
        simp [List.lookup, hb, ih]

theorem lookup_map_replace_other {β : Type} (l : List (String × β))
    (k k' : String) (v : β) (h : k' ≠ k) :
    (l.map (fun p => if p.1 = k then (p.1, v) else p)).lookup k' =
      l.lookup k' := by
  induction l with
  | nil => simp
  | cons a t ih =>
      obtain ⟨a1, a2⟩ := a
      rw [List.map_cons]
      by_cases ha : a1 = k
      · subst ha
        have hhead : (if (a1, a2).1 = a1 then ((a1, a2).1, v) else (a1, a2)) =
            (a1, v) := by simp
        rw [hhead]
        have hb : (k' == a1) = false := by simp [h]
        simp [List.lookup, hb, ih]
      · have hhead : (if (a1, a2).1 = k then ((a1, a2).1, v) else (a1, a2)) =
            (a1, a2) := by simp [ha]
        rw [hhead]
        by_cases hk2 : k' = a1
        · subst hk2
          simp [List.lookup]
        · have hb : (k' == a1) = false := by simp [hk2]
          simp [List.lookup, hb, ih]

/-- A sequence of contract update calls applied to the store, each with
its own generated entry id and call time; a call on an unknown id leaves
the store unchanged, as in the source. -/
def applyUpdates (store : ContractStore) :
    List (String × ContractUpdateInput × String × Nat) → ContractStore
  | [] => store
  | (id, u, eid, now) :: rest =>
      match updateContract store id u eid now with
      | some (_, store') => applyUpdates store' rest
      | none => applyUpdates store rest

/-- Whether an id refers to a message that exists and is not yet
acknowledged (the condition of the `ack_message` loop body, read against
a fixed message list). -/
def pendingId (msgs : List Message) (i : String) : Bool :=
  match msgs.find? (fun m => m.id == i) with
  | some m => !m.acknowledged
  | none => false

/-- A sample contract used to instantiate the theorems on concrete
data. -/
def sampleContract : TaskContract :=
  { id := "c1", title := "T", description := none, initiator := "i",
    owner := none, status := .proposed, priority := .medium, tags := [],
    files := [], createdAt := 0, updatedAt := 0, dueAt := none,
    metadata := [("k", "v")], relatedMessageId := none,
    history := [{ id := "h1", timestamp := 0, actor := "i",
                  status := .proposed, note := some "Contract created" }] }

/-- A sample status-changing update input used to instantiate the
theorems on concrete data. -/
def sampleStatusUpdate : ContractUpdateInput :=
  { actor := "a", status := some .accepted, owner := none, note := none,
    metadata := none, tags := none, files := none, dueAt := none }

/-- A sample acknowledged message. -/
def sampleAckedMsg : Message :=
  { id := "m1", recipient := "bob", content := "x", timestamp := 0,
    acknowledged := true, sender := none, contractId := none }

/-- A sample pending message. -/
def samplePendingMsg : Message :=
  { id := "m2", recipient := "bob", content := "y", timestamp := 0,
    acknowledged := false, sender := none, contractId := none }

/-- The acknowledgment invariant for a message id: the id is present in
the store and every message bearing it is acknowledged. -/
def ackedForever (mid : String) (s : BridgeState) : Prop :=
  mid ∈ s.messages.map Message.id ∧
  ∀ x ∈ s.messages, x.id = mid → x.acknowledged = true

end AgentBridge

namespace AgentBridge

/-- C4: at most one non-expired lock per resource (structural: the lock
store is keyed by resource), and while a non-expired lock for `r` is
held, any well-formed acquire attempt for `r`, by any holder `h2` and any
ttl, fails with 409 Conflict and leaves the existing lock in place. -/
theorem C4_acquire_conflict_while_held (s : BridgeState) (now : Nat)
    (r h2 : String) (ttl2 : Nat) (L : ResourceLock)
    (hr : r ≠ "") (hh : h2 ≠ "") (ht : 0 < ttl2)
    (hl : s.locks.lookup r = some L)
    (hexp : isLockExpired now L = false) :
    (step s now (.lockResource r h2 ttl2)).1 = .errConflict ∧
    (step s now (.lockResource r h2 ttl2)).2.1.locks.lookup r = some L := by
  have hv : (!(validLockInput r h2 ttl2)) = false := by
    simp [validLockInput, hr, hh, ht]
  have hcl : (cleanExpiredLocks now s.locks).1.lookup r = some L :=
    lookup_filter_keep hl (by simp [hexp])
  constructor
  · simp [step, hv, hcl]
  · simp [step, hv, hcl]

/-- C4 witness: a concrete non-expired lock on `"r"` (ttl 30 s, created
at 0, queried at 5 ms) blocks a second acquire. -/
theorem C4_acquire_conflict_while_held_witness :
    (step ⟨[], [("r", ⟨"r", "a", 30, 0⟩)], []⟩ 5
        (.lockResource "r" "b" 7)).1 = .errConflict ∧
    (step ⟨[], [("r", ⟨"r", "a", 30, 0⟩)], []⟩ 5
        (.lockResource "r" "b" 7)).2.1.locks.lookup "r" =
      some ⟨"r", "a", 30, 0⟩ :=
  C4_acquire_conflict_while_held ⟨[], [("r", ⟨"r", "a", 30, 0⟩)], []⟩ 5
    "r" "b" 7 ⟨"r", "a", 30, 0⟩ (by decide) (by decide) (by decide)
    (by decide) (by decide)

/-- C6: a renew on a present-but-expired lock fails with NotFound (the
sweep that every lock operation runs first removes the expired lock
before the lookup, so the 404 branch is taken — the claim allows
NotFound or Expired), the expired lock is removed from the store, a
`lock.expired` event is emitted for it, and no lock with the renewed ttl
remains (the lookup after the call is `none`). -/
theorem C6_renew_expired_swept (s : BridgeState) (now : Nat)
    (r : String) (ttl' : Nat) (L : ResourceLock)
    (hr : r ≠ "") (ht : 0 < ttl')
    (hnd : (s.locks.map Prod.fst).Nodup)
    (hl : s.locks.lookup r = some L)
    (hexp : isLockExpired now L = true) :
    (step s now (.renewLock r ttl')).1 = .errNotFound ∧
    (step s now (.renewLock r ttl')).2.1.locks.lookup r = none ∧
    Ev.lockExpired r L.holder ∈ (step s now (.renewLock r ttl')).2.2 := by
  have hv : (!(validRenewInput r ttl')) = false := by
    simp [validRenewInput, hr, ht]
  have hcl : (cleanExpiredLocks now s.locks).1.lookup r = none :=
    lookup_filter_drop hnd hl (by simp [hexp])
  refine ⟨?_, ?_, ?_⟩
  · simp [step, hv, hcl]
  · simp [step, hv, hcl]
  · have hmem : (r, L) ∈ s.locks := lookup_mem hl
    have hmf : (r, L) ∈ s.locks.filter (fun p => isLockExpired now p.2) :=
      List.mem_filter.mpr ⟨hmem, by simp [hexp]⟩
    have hev : Ev.lockExpired r L.holder ∈ (cleanExpiredLocks now s.locks).2 :=
      List.mem_map.mpr ⟨(r, L), hmf, rfl⟩
    simpa [step, hv, hcl] using hev

/-- C6 witness: a lock with ttl 1 s created at 0, renewed at 2000 ms. -/
theorem C6_renew_expired_swept_witness :
    (step ⟨[], [("r", ⟨"r", "a", 1, 0⟩)], []⟩ 2000
        (.renewLock "r" 5)).1 = .errNotFound ∧
    (step ⟨[], [("r", ⟨"r", "a", 1, 0⟩)], []⟩ 2000
        (.renewLock "r" 5)).2.1.locks.lookup "r" = none ∧
    Ev.lockExpired "r" "a" ∈
      (step ⟨[], [("r", ⟨"r", "a", 1, 0⟩)], []⟩ 2000 (.renewLock "r" 5)).2.2 :=
  C6_renew_expired_swept ⟨[], [("r", ⟨"r", "a", 1, 0⟩)], []⟩ 2000 "r" 5
    ⟨"r", "a", 1, 0⟩ (by decide) (by decide) (by decide) (by decide)
    (by decide)

/-- C8: release removes a present non-expired lock and succeeds — the
release operation carries no holder identity at all (its only input is
the resource name), so success is independent of the caller and of the
lock's holder, which is universally quantified here — and release of an
absent lock fails with NotFound. -/
theorem C8_release_unconditional (s : BridgeState) (now : Nat)
    (r : String) (hr : r ≠ "") :
    (∀ L, s.locks.lookup r = some L → isLockExpired now L = false →
        (step s now (.unlockResource r)).1 = .unlockOk ∧
        (step s now (.unlockResource r)).2.1.locks.lookup r = none) ∧
    (s.locks.lookup r = none →
        (step s now (.unlockResource r)).1 = .errNotFound) := by
  constructor
  · intro L hl hexp
    have hcl : (cleanExpiredLocks now s.locks).1.lookup r = some L :=
      lookup_filter_keep hl (by simp [hexp])
    constructor
    · simp [step, hr, hcl]
    · simp [step, hr, hcl, lookup_mapDelete_self]
  · intro hl
    have hcl : (cleanExpiredLocks now s.locks).1.lookup r = none :=
      lookup_filter_of_none hl
    simp [step, hr, hcl]

/-- C8 witness: release of a held lock succeeds and empties the entry;
release on an empty store is NotFound. -/
theorem C8_release_unconditional_witness :
    ((step ⟨[], [("r", ⟨"r", "a", 30, 0⟩)], []⟩ 5
        (.unlockResource "r")).1 = .unlockOk ∧
     (step ⟨[], [("r", ⟨"r", "a", 30, 0⟩)], []⟩ 5
        (.unlockResource "r")).2.1.locks.lookup "r" = none) ∧
    (step ⟨[], [], []⟩ 5 (.unlockResource "r")).1 = .errNotFound :=
  ⟨(C8_release_unconditional ⟨[], [("r", ⟨"r", "a", 30, 0⟩)], []⟩ 5 "r"
      (by decide)).1 ⟨"r", "a", 30, 0⟩ (by decide) (by decide),
   (C8_release_unconditional ⟨[], [], []⟩ 5 "r" (by decide)).2 (by decide)⟩

/-- C1: the claim says a subscriber connecting after N events receives the
min(N, 100) most recent events in original publish order.  Evaluating the
code at N = 100 (events numbered 1..100, pushed in order into an empty
buffer): the replay is `[2, 3, ..., 100, 1]` — the oldest event is sent
last instead of first — not the chronological `[1, ..., 100]` the claim
(and the code's own comments, which say the scan starts at the oldest
entry) require.  The scan starts one slot past the oldest entry: an
off-by-one in `sendEventHistory`. -/
theorem C1_replay_not_chronological_after_100_events :
    sendEventHistory (pushEventsBuf (EventBuffer.empty (α := Nat))
        ((List.range 100).map (fun k => k + 1))) ≠
      (List.range 100).map (fun k => k + 1) ∧
    sendEventHistory (pushEventsBuf (EventBuffer.empty (α := Nat))
        ((List.range 100).map (fun k => k + 1))) =
      ((List.range 99).map (fun k => k + 2)) ++ [1] := by
  set_option maxRecDepth 10000 in decide

end AgentBridge

namespace AgentBridge

theorem lookup_filter_of_keyPred {β : Type} {p : String × β → Bool}
    {l : List (String × β)} {k : String}
    (hp : ∀ w, p (k, w) = true) : (l.filter p).lookup k = l.lookup k := by
  induction l with
  | nil => simp
  | cons a t ih =>
      obtain ⟨a1, a2⟩ := a
      rw [List.filter_cons]
      by_cases hk : k = a1
      · subst hk
        simp [hp a2, List.lookup]
      · have hb : (k == a1) = false := by simp [hk]
        cases hpa : p (a1, a2)
        · rw [show (if false = true then (a1, a2) :: List.filter p t else
              List.filter p t) = List.filter p t from by simp, ih]
          simp [List.lookup, hb]
        · rw [show (if true = true then (a1, a2) :: List.filter p t else
              List.filter p t) = (a1, a2) :: List.filter p t from by simp]
          simp only [List.lookup, hb]
          exact ih

theorem spreadMerge_lookup_override (a b : Metadata) (k v : String)
    (h : b.lookup k = some v) : (spreadMerge a b).lookup k = some v := by
  have hnone : (a.filter (fun p => (b.lookup p.1).isNone)).lookup k = none := by
    apply lookup_notMem_keys
    intro hmem
    rcases List.mem_map.mp hmem with ⟨q, hq, hq1⟩
    have hqp := (List.mem_filter.mp hq).2
    rw [hq1, h] at hqp
    simp at hqp
  unfold spreadMerge
  rw [lookup_append, hnone]
  simpa using h

theorem spreadMerge_lookup_keep (a b : Metadata) (k : String)
    (h : b.lookup k = none) : (spreadMerge a b).lookup k = a.lookup k := by
  have hfa : (a.filter (fun p => (b.lookup p.1).isNone)).lookup k = a.lookup k :=
    lookup_filter_of_keyPred (fun w => by simp [h])
  unfold spreadMerge
  rw [lookup_append, hfa]
  rcases hsc : a.lookup k with _ | v <;> simp [hsc, h]

/-- C5: `relatedMessageId` is first-writer-wins.  For a contract whose
`relatedMessageId` is unset (JavaScript-falsy: absent or empty — the
source tests `!contract.relatedMessageId`), linking `m1` (a real,
non-empty message id) and then `m2` leaves `relatedMessageId = m1`; a
link attempt on a contract whose `relatedMessageId` is already (truthily)
set, or on a missing contract, returns the store unchanged — and
`attachMessageToContract` has no access to the event broadcaster, so a
no-op emits no event. -/
theorem C5_link_first_writer_wins (store : ContractStore)
    (c m1 m2 : String) :
    (∀ ct, store.lookup c = some ct →
      (strTruthy ct.relatedMessageId = false → m1 ≠ "" →
        ∃ ct', (attachMessageToContract
            (attachMessageToContract store c m1) c m2).lookup c = some ct' ∧
          ct'.relatedMessageId = some m1) ∧
      (strTruthy ct.relatedMessageId = true →
        attachMessageToContract store c m1 = store)) ∧
    (store.lookup c = none → attachMessageToContract store c m1 = store) := by
  constructor
  · intro ct hct
    constructor
    · intro hunset hm1
      have h1 : attachMessageToContract store c m1 =
          store.map (fun p =>
            if p.1 = c then (p.1, { ct with relatedMessageId := some m1 })
            else p) := by
        simp [attachMessageToContract, hct, hunset]
      have h2 : (attachMessageToContract store c m1).lookup c =
          some { ct with relatedMessageId := some m1 } := by
        rw [h1, lookup_map_replace_self, hct]
        rfl
      have htr : strTruthy
          ({ ct with relatedMessageId := some m1 }).relatedMessageId = true := by
        simp [strTruthy, hm1]
      have h3 : attachMessageToContract (attachMessageToContract store c m1)
          c m2 = attachMessageToContract store c m1 := by
        conv_lhs => rw [attachMessageToContract, h2]
        simp [htr]
      exact ⟨{ ct with relatedMessageId := some m1 }, by rw [h3]; exact h2, rfl⟩
    · intro hset
      conv_lhs => rw [attachMessageToContract, hct]
      simp [hset]
  · intro hnone
    conv_lhs => rw [attachMessageToContract, hnone]

/-- C5 witness: linking `"m1"` then `"m2"` on a freshly created contract
leaves `relatedMessageId = "m1"`. -/
theorem C5_link_first_writer_wins_witness :
    ∃ ct', (attachMessageToContract (attachMessageToContract
        [("c1", sampleContract)] "c1" "m1") "c1" "m2").lookup "c1" =
          some ct' ∧
      ct'.relatedMessageId = some "m1" :=
  ((C5_link_first_writer_wins [("c1", sampleContract)] "c1" "m1" "m2").1
    sampleContract (by decide)).1 (by decide) (by decide)

end AgentBridge

namespace AgentBridge

/-- C9: a metadata-carrying update shallow-merges: every key of the
supplied map ends with its supplied value, every other pre-existing key
keeps its old value; and `updatedAt` is refreshed on every successful
update, metadata or not, history entry or not. -/
theorem C9_metadata_shallow_merge (store : ContractStore) (id : String)
    (u : ContractUpdateInput) (eid : String) (now : Nat) :
    (∀ c m, store.lookup id = some c → u.metadata = some m →
      ∃ c' store', updateContract store id u eid now = some (c', store') ∧
        (∀ k v, m.lookup k = some v → c'.metadata.lookup k = some v) ∧
        (∀ k, m.lookup k = none →
          c'.metadata.lookup k = c.metadata.lookup k) ∧
        c'.updatedAt = now) ∧
    (∀ c c' store', store.lookup id = some c →
      updateContract store id u eid now = some (c', store') →
      c'.updatedAt = now) := by
  constructor
  · intro c m hc hm
    refine ⟨applyUpdate c u eid now,
      store.map (fun p => if p.1 = id then (p.1, applyUpdate c u eid now)
        else p), by simp [updateContract, hc], ?_, ?_, ?_⟩
    · intro k v hkv
      have hmeta : (applyUpdate c u eid now).metadata =
          spreadMerge c.metadata m := by
        simp [applyUpdate, hm]
      rw [hmeta]
      exact spreadMerge_lookup_override _ _ _ _ hkv
    · intro k hk
      have hmeta : (applyUpdate c u eid now).metadata =
          spreadMerge c.metadata m := by
        simp [applyUpdate, hm]
      rw [hmeta]
      exact spreadMerge_lookup_keep _ _ _ hk
    · simp [applyUpdate]
  · intro c c' store' hc hupd
    rw [updateContract, hc] at hupd
    simp only [Option.some.injEq, Prod.mk.injEq] at hupd
    rw [← hupd.1]
    simp [applyUpdate]

/-- C9 witness: updating the sample contract with metadata
`[("k", "w"), ("n", "x")]` at time 7. -/
theorem C9_metadata_shallow_merge_witness :
    ∃ c' store',
      updateContract [("c1", sampleContract)] "c1"
        { actor := "a", status := none, owner := none, note := none,
          metadata := some [("k", "w"), ("n", "x")], tags := none,
          files := none, dueAt := none } "e2" 7 = some (c', store') ∧
      (∀ k v, (([("k", "w"), ("n", "x")] : Metadata).lookup k = some v) →
        c'.metadata.lookup k = some v) ∧
      (∀ k, (([("k", "w"), ("n", "x")] : Metadata).lookup k = none) →
        c'.metadata.lookup k = sampleContract.metadata.lookup k) ∧
      c'.updatedAt = 7 :=
  (C9_metadata_shallow_merge [("c1", sampleContract)] "c1"
    { actor := "a", status := none, owner := none, note := none,
      metadata := some [("k", "w"), ("n", "x")], tags := none,
      files := none, dueAt := none } "e2" 7).1
    sampleContract [("k", "w"), ("n", "x")] (by decide) rfl

end AgentBridge

namespace AgentBridge

theorem applyUpdate_history (c : TaskContract) (u : ContractUpdateInput)
    (eid : String) (now : Nat) :
    (applyUpdate c u eid now).history =
      c.history ++
        (if ((match u.status with
              | some st => st != c.status
              | none => false) || strTruthy u.note) = true then
          [{ id := eid, timestamp := now, actor := u.actor,
             status := (match u.status with
               | some st => st
               | none => c.status),
             note := u.note }]
        else []) := rfl

theorem historyCond_iff (c : TaskContract) (u : ContractUpdateInput) :
    (((match u.status with
        | some st => st != c.status
        | none => false) || strTruthy u.note) = true) ↔
      ((∃ st, u.status = some st ∧ st ≠ c.status) ∨
       (∃ n, u.note = some n ∧ n ≠ "")) := by
  cases hs : u.status <;> cases hn : u.note <;> simp [strTruthy, hs, hn]

/-- C3: the first history entry is written at creation (`length = 1`);
a successful update appends exactly one entry when the update carries a
status different from the current one or a non-empty note, and none
otherwise; the old history is always a prefix of the new one (entries are
never removed or modified), and hence over any sequence of update calls
the history only grows by appending. -/
theorem C3_history_monotone :
    (∀ input eid cid now,
      (createContract input eid cid now).history.length = 1) ∧
    (∀ store id u eid now c, store.lookup id = some c →
      ∃ c' store', updateContract store id u eid now = some (c', store') ∧
        (((∃ st, u.status = some st ∧ st ≠ c.status) ∨
          (∃ n, u.note = some n ∧ n ≠ "")) →
            c'.history.length = c.history.length + 1) ∧
        (¬((∃ st, u.status = some st ∧ st ≠ c.status) ∨
           (∃ n, u.note = some n ∧ n ≠ "")) →
            c'.history.length = c.history.length) ∧
        ∃ tail, c'.history = c.history ++ tail) ∧
    (∀ store cid c us, store.lookup cid = some c →
      ∃ c'', (applyUpdates store us).lookup cid = some c'' ∧
        ∃ tail, c''.history = c.history ++ tail) := by
  refine ⟨?_, ?_, ?_⟩
  · intro input eid cid now
    simp [createContract]
  · intro store id u eid now c hc
    refine ⟨applyUpdate c u eid now,
      store.map (fun p => if p.1 = id then (p.1, applyUpdate c u eid now)
        else p), by simp [updateContract, hc], ?_, ?_, ?_⟩
    · intro hP
      rw [applyUpdate_history, (historyCond_iff c u).mpr hP]
      simp
    · intro hP
      have hb : ((match u.status with
          | some st => st != c.status
          | none => false) || strTruthy u.note) = false := by
        cases hcond : ((match u.status with
            | some st => st != c.status
            | none => false) || strTruthy u.note)
        · rfl
        · exact absurd ((historyCond_iff c u).mp hcond) hP
      rw [applyUpdate_history, hb]
      simp
    · rw [applyUpdate_history]
      exact ⟨_, rfl⟩
  · intro store cid c us hc
    induction us generalizing store c with
    | nil => exact ⟨c, hc, [], by simp [applyUpdates]⟩
    | cons head rest ih =>
        obtain ⟨id2, u2, eid2, now2⟩ := head
        cases hlk : store.lookup id2 with
        | none =>
            have happ : applyUpdates store ((id2, u2, eid2, now2) :: rest) =
                applyUpdates store rest := by
              simp [applyUpdates, updateContract, hlk]
            rw [happ]
            exact ih store c hc
        | some c0 =>
            have hupd : updateContract store id2 u2 eid2 now2 =
                some (applyUpdate c0 u2 eid2 now2,
                  store.map (fun p =>
                    if p.1 = id2 then (p.1, applyUpdate c0 u2 eid2 now2)
                    else p)) := by
              simp [updateContract, hlk]
            have happ : applyUpdates store ((id2, u2, eid2, now2) :: rest) =
                applyUpdates (store.map (fun p =>
                  if p.1 = id2 then (p.1, applyUpdate c0 u2 eid2 now2)
                  else p)) rest := by
              rw [applyUpdates, hupd]
            rw [happ]
            by_cases hid : cid = id2
            · subst hid
              have hc0 : c0 = c := by
                rw [hc] at hlk
                exact (Option.some.inj hlk).symm
              subst hc0
              have hlk2 : (store.map (fun p =>
                  if p.1 = cid then (p.1, applyUpdate c0 u2 eid2 now2)
                  else p)).lookup cid =
                    some (applyUpdate c0 u2 eid2 now2) := by
                rw [lookup_map_replace_self, hc]
                rfl
              obtain ⟨c'', hcl, t, ht⟩ := ih _ _ hlk2
              refine ⟨c'', hcl, ?_⟩
              rw [ht, applyUpdate_history]
              exact ⟨_, by rw [List.append_assoc]⟩
            · have hlk2 : (store.map (fun p =>
                  if p.1 = id2 then (p.1, applyUpdate c0 u2 eid2 now2)
                  else p)).lookup cid = some c := by
                rw [lookup_map_replace_other _ _ _ _ hid]
                exact hc
              exact ih _ _ hlk2

/-- C3 witness: a status-changing update on the sample contract appends
exactly one history entry, keeping the old history as a prefix. -/
theorem C3_history_monotone_witness :
    ∃ c' store',
      updateContract [("c1", sampleContract)] "c1" sampleStatusUpdate
        "e2" 7 = some (c', store') ∧
      (((∃ st, sampleStatusUpdate.status = some st ∧
            st ≠ sampleContract.status) ∨
        (∃ n, sampleStatusUpdate.note = some n ∧ n ≠ "")) →
          c'.history.length = sampleContract.history.length + 1) ∧
      (¬((∃ st, sampleStatusUpdate.status = some st ∧
            st ≠ sampleContract.status) ∨
        (∃ n, sampleStatusUpdate.note = some n ∧ n ≠ "")) →
          c'.history.length = sampleContract.history.length) ∧
      ∃ tail, c'.history = sampleContract.history ++ tail :=
  C3_history_monotone.2.1 [("c1", sampleContract)] "c1" sampleStatusUpdate
    "e2" 7 sampleContract (by decide)

end AgentBridge

namespace AgentBridge

/-- C2 counterexample: with a single expired lock on `"r"` (ttl 1 s,
created at 0) and the renew arriving at 2000 ms, `renew_lock` answers an
error (404) — yet the lock map has changed (the expired lock was swept)
and a `lock.expired` event was emitted.  This refutes the claim that an
operation returning an error leaves the stores unchanged and emits no
event, and specifically that a failed renew leaves the lock map exactly
as it was. -/
theorem C2_error_not_fully_atomic_counterexample :
    (step ⟨[], [("r", ⟨"r", "a", 1, 0⟩)], []⟩ 2000
        (.renewLock "r" 5)).1.isError = true ∧
    (step ⟨[], [("r", ⟨"r", "a", 1, 0⟩)], []⟩ 2000
        (.renewLock "r" 5)).2.1.locks ≠ [("r", ⟨"r", "a", 1, 0⟩)] ∧
    (step ⟨[], [("r", ⟨"r", "a", 1, 0⟩)], []⟩ 2000
        (.renewLock "r" 5)).2.2 ≠ [] := by
  decide

/-- C2 (amended): when any operation returns an error response, the
message and contract stores are unchanged, and either the lock store is
also unchanged and no event is emitted, or (for the lock operations,
which run the lazy expiry sweep before anything else) the only state
change is the sweep's removal of already-expired locks and the only
events emitted are the sweep's `lock.expired` events — so the set of
non-expired locks is unchanged by every failed operation. -/
theorem C2_error_atomicity_up_to_sweep (s : BridgeState) (now : Nat)
    (o : Op) (herr : (step s now o).1.isError = true) :
    (step s now o).2.1.messages = s.messages ∧
    (step s now o).2.1.contracts = s.contracts ∧
    (((step s now o).2.1.locks = s.locks ∧ (step s now o).2.2 = []) ∨
     ((step s now o).2.1.locks = (cleanExpiredLocks now s.locks).1 ∧
      (step s now o).2.2 = (cleanExpiredLocks now s.locks).2)) := by
  cases o with
  | publishMessage recipient content sender contractId contract mId eId nId =>
      cases hval : validPublish recipient content sender contractId contract
      · simp [step, hval]
      · cases hnf : (contractId.isSome &&
            (getContract s.contracts (contractId.getD "")).isNone)
        · simp [step, hval, hnf, Resp.isError] at herr
        · simp [step, hval, hnf]
  | fetchMessages recipient =>
      by_cases hr : recipient = ""
      · simp [step, hr]
      · simp [step, hr, Resp.isError] at herr
  | ackMessage ids =>
      simp [step, Resp.isError] at herr
  | createContractOp input eId nId =>
      cases hval : validCreateInput input
      · simp [step, hval]
      · simp [step, hval, Resp.isError] at herr
  | getContractOp id =>
      by_cases hi : id = ""
      · simp [step, hi]
      · cases hlo : getContract s.contracts id
        · simp [step, hi, hlo]
        · simp [step, hi, hlo, Resp.isError] at herr
  | updateContractOp id u eId =>
      by_cases hi : id = "" ∨ validUpdateInput u = false
      · simp [step, hi]
      · cases hud : updateContract s.contracts id u eId now with
        | none => simp [step, hi, hud]
        | some pr =>
            obtain ⟨c', store'⟩ := pr
            simp [step, hi, hud, Resp.isError] at herr
  | lockResource resource holder ttl =>
      cases hval : validLockInput resource holder ttl
      · simp [step, hval]
      · cases hlk : ((cleanExpiredLocks now s.locks).1.lookup resource).isSome
        · simp [step, hval, hlk, Resp.isError] at herr
        · simp [step, hval, hlk]
  | renewLock resource ttl =>
      cases hval : validRenewInput resource ttl
      · simp [step, hval]
      · cases hlk : (cleanExpiredLocks now s.locks).1.lookup resource with
        | none => simp [step, hval, hlk]
        | some lk =>
            have hne : isLockExpired now lk = false := by
              have hp := lookup_filter_pred
                (p := fun p => !isLockExpired now p.2) hlk
              simpa using hp
            simp [step, hval, hlk, hne, Resp.isError] at herr
  | unlockResource resource =>
      by_cases hr : resource = ""
      · simp [step, hr]
      · cases hlk : (cleanExpiredLocks now s.locks).1.lookup resource with
        | none => simp [step, hr, hlk]
        | some lk => simp [step, hr, hlk, Resp.isError] at herr

/-- C2 witness: the amended atomicity theorem applied to the concrete
failed renew of the counterexample. -/
theorem C2_error_atomicity_up_to_sweep_witness :
    (step ⟨[], [("r", ⟨"r", "a", 1, 0⟩)], []⟩ 2000
        (.renewLock "r" 5)).2.1.messages = [] ∧
    (step ⟨[], [("r", ⟨"r", "a", 1, 0⟩)], []⟩ 2000
        (.renewLock "r" 5)).2.1.contracts = [] ∧
    (((step ⟨[], [("r", ⟨"r", "a", 1, 0⟩)], []⟩ 2000
        (.renewLock "r" 5)).2.1.locks = [("r", ⟨"r", "a", 1, 0⟩)] ∧
      (step ⟨[], [("r", ⟨"r", "a", 1, 0⟩)], []⟩ 2000
        (.renewLock "r" 5)).2.2 = []) ∨
     ((step ⟨[], [("r", ⟨"r", "a", 1, 0⟩)], []⟩ 2000
        (.renewLock "r" 5)).2.1.locks =
          (cleanExpiredLocks 2000 [("r", ⟨"r", "a", 1, 0⟩)]).1 ∧
      (step ⟨[], [("r", ⟨"r", "a", 1, 0⟩)], []⟩ 2000
        (.renewLock "r" 5)).2.2 =
          (cleanExpiredLocks 2000 [("r", ⟨"r", "a", 1, 0⟩)]).2)) :=
  C2_error_atomicity_up_to_sweep ⟨[], [("r", ⟨"r", "a", 1, 0⟩)], []⟩ 2000
    (.renewLock "r" 5) (by decide)

end AgentBridge

namespace AgentBridge

theorem map_id_mark (msgs : List Message) (i : String) :
    (msgs.map (fun x => if x.id = i then { x with acknowledged := true }
      else x)).map Message.id = msgs.map Message.id := by
  induction msgs with
  | nil => rfl
  | cons a t ih =>
      by_cases ha : a.id = i <;> simp [ha, ih]

theorem ackStep_cases (acc : List Message × Nat × List Ev) (i : String) :
    (ackStep acc i).1 = acc.1 ∨
    ∃ m, acc.1.find? (fun m => m.id == i) = some m ∧
      m.acknowledged = false ∧
      (ackStep acc i).1 = acc.1.map (fun x =>
        if x.id = i then { x with acknowledged := true } else x) := by
  unfold ackStep
  cases hf : acc.1.find? (fun m => m.id == i) with
  | none => exact Or.inl rfl
  | some m =>
      cases hm : m.acknowledged
      · exact Or.inr ⟨m, rfl, hm, by simp [hm]⟩
      · exact Or.inl (by simp [hm])

theorem ackFold_map_id (ids : List String) :
    ∀ acc : List Message × Nat × List Ev,
      ((ids.foldl ackStep acc).1).map Message.id = acc.1.map Message.id := by
  induction ids with
  | nil => intro acc; rfl
  | cons i rest ih =>
      intro acc
      rw [List.foldl_cons, ih]
      rcases ackStep_cases acc i with h | ⟨m, _, _, h⟩
      · rw [h]
      · rw [h, map_id_mark]

theorem ackFold_acked (mid : String) (ids : List String) :
    ∀ acc : List Message × Nat × List Ev,
      (∀ x ∈ acc.1, x.id = mid → x.acknowledged = true) →
      ∀ x ∈ (ids.foldl ackStep acc).1, x.id = mid →
        x.acknowledged = true := by
  induction ids with
  | nil => intro acc h; exact h
  | cons i rest ih =>
      intro acc h
      rw [List.foldl_cons]
      apply ih
      rcases ackStep_cases acc i with heq | ⟨m, _, hm, heq⟩
      · rw [heq]; exact h
      · rw [heq]
        intro x hx hxid
        rcases List.mem_map.mp hx with ⟨y, hy, rfl⟩
        by_cases hyi : y.id = i
        · have he : (if y.id = i then { y with acknowledged := true }
              else y) = { y with acknowledged := true } := by simp [hyi]
          rw [he]
        · have he : (if y.id = i then { y with acknowledged := true }
              else y) = y := by simp [hyi]
          rw [he] at hxid ⊢
          exact h y hy hxid

theorem stepPreservesAcked (mid : String) (s : BridgeState) (now : Nat)
    (o : Op) (hfresh : opFresh s o = true) (h : ackedForever mid s) :
    ackedForever mid (step s now o).2.1 := by
  obtain ⟨hmem, hall⟩ := h
  cases o with
  | publishMessage recipient content sender contractId contract mId eId nId =>
      have hfid : mId ∉ s.messages.map Message.id := by
        simpa [opFresh] using hfresh
      cases hval : validPublish recipient content sender contractId contract
      · exact ⟨by simpa [step, hval] using hmem,
          by simpa [step, hval] using hall⟩
      · cases hnf : (contractId.isSome &&
            (getContract s.contracts (contractId.getD "")).isNone)
        · constructor
          · simp only [step, hval, hnf]
            simpa using Or.inl hmem
          · intro x hx hxid
            simp [step, hval, hnf] at hx
            rcases hx with hx1 | rfl
            · exact hall x hx1 hxid
            · exfalso
              apply hfid
              have hid : mId = mid := hxid
              rw [hid]
              exact hmem
        · exact ⟨by simpa [step, hval, hnf] using hmem,
            by simpa [step, hval, hnf] using hall⟩
  | fetchMessages recipient =>
      by_cases hr : recipient = ""
      · exact ⟨by simpa [step, hr] using hmem, by simpa [step, hr] using hall⟩
      · exact ⟨by simpa [step, hr] using hmem, by simpa [step, hr] using hall⟩
  | ackMessage ids =>
      constructor
      · have h2 : ((ackMessages s.messages ids).1).map Message.id =
            s.messages.map Message.id := ackFold_map_id ids (s.messages, 0, [])
        have h3 : (step s now (.ackMessage ids)).2.1.messages =
            (ackMessages s.messages ids).1 := rfl
        rw [h3, h2]
        exact hmem
      · intro x hx hxid
        have h3 : (step s now (.ackMessage ids)).2.1.messages =
            (ackMessages s.messages ids).1 := rfl
        rw [h3] at hx
        exact ackFold_acked mid ids (s.messages, 0, []) hall x hx hxid
  | createContractOp input eId nId =>
      cases hval : validCreateInput input
      · exact ⟨by simpa [step, hval] using hmem,
          by simpa [step, hval] using hall⟩
      · exact ⟨by simpa [step, hval] using hmem,
          by simpa [step, hval] using hall⟩
  | getContractOp id =>
      by_cases hi : id = ""
      · exact ⟨by simpa [step, hi] using hmem, by simpa [step, hi] using hall⟩
      · cases hlo : getContract s.contracts id
        · exact ⟨by simpa [step, hi, hlo] using hmem,
            by simpa [step, hi, hlo] using hall⟩
        · exact ⟨by simpa [step, hi, hlo] using hmem,
            by simpa [step, hi, hlo] using hall⟩
  | updateContractOp id u eId =>
      by_cases hi : id = "" ∨ validUpdateInput u = false
      · exact ⟨by simpa [step, hi] using hmem, by simpa [step, hi] using hall⟩
      · cases hud : updateContract s.contracts id u eId now with
        | none =>
            exact ⟨by simpa [step, hi, hud] using hmem,
              by simpa [step, hi, hud] using hall⟩
        | some pr =>
            obtain ⟨c', store'⟩ := pr
            exact ⟨by simpa [step, hi, hud] using hmem,
              by simpa [step, hi, hud] using hall⟩
  | lockResource resource holder ttl =>
      cases hval : validLockInput resource holder ttl
      · exact ⟨by simpa [step, hval] using hmem,
          by simpa [step, hval] using hall⟩
      · cases hlk : ((cleanExpiredLocks now s.locks).1.lookup resource).isSome
        · exact ⟨by simpa [step, hval, hlk] using hmem,
            by simpa [step, hval, hlk] using hall⟩
        · exact ⟨by simpa [step, hval, hlk] using hmem,
            by simpa [step, hval, hlk] using hall⟩
  | renewLock resource ttl =>
      cases hval : validRenewInput resource ttl
      · exact ⟨by simpa [step, hval] using hmem,
          by simpa [step, hval] using hall⟩
      · cases hlk : (cleanExpiredLocks now s.locks).1.lookup resource with
        | none =>
            exact ⟨by simpa [step, hval, hlk] using hmem,
              by simpa [step, hval, hlk] using hall⟩
        | some lk =>
            cases hexp : isLockExpired now lk
            · exact ⟨by simpa [step, hval, hlk, hexp] using hmem,
                by simpa [step, hval, hlk, hexp] using hall⟩
            · exact ⟨by simpa [step, hval, hlk, hexp] using hmem,
                by simpa [step, hval, hlk, hexp] using hall⟩
  | unlockResource resource =>
      by_cases hr : resource = ""
      · exact ⟨by simpa [step, hr] using hmem, by simpa [step, hr] using hall⟩
      · cases hlk : (cleanExpiredLocks now s.locks).1.lookup resource with
        | none =>
            exact ⟨by simpa [step, hr, hlk] using hmem,
              by simpa [step, hr, hlk] using hall⟩
        | some lk =>
            exact ⟨by simpa [step, hr, hlk] using hmem,
              by simpa [step, hr, hlk] using hall⟩

theorem runPreservesAcked (mid : String) (ops : List (Nat × Op)) :
    ∀ s : BridgeState, runFresh s ops = true → ackedForever mid s →
      ackedForever mid (runState s ops) := by
  induction ops with
  | nil => intro s _ h; exact h
  | cons p rest ih =>
      obtain ⟨t, o⟩ := p
      intro s hf h
      rw [runState]
      rw [runFresh, Bool.and_eq_true] at hf
      exact ih _ hf.2 (stepPreservesAcked mid s t o hf.1 h)

/-- C7: once a message `m` is acknowledged, no state reachable by any
sequence of operations (with fresh generated ids, as `generateId`
guarantees) ever returns a message with `m`'s id from `fetchPending`
again: acknowledgment is never reset, and the pending fetch filters
acknowledged messages out. -/
theorem C7_ack_permanent (s : BridgeState) (ops : List (Nat × Op))
    (m : Message) (hm : m ∈ s.messages) (hack : m.acknowledged = true)
    (hnd : (s.messages.map Message.id).Nodup)
    (hfresh : runFresh s ops = true) :
    ∀ r x, x ∈ fetchPending (runState s ops).messages r → x.id ≠ m.id := by
  have h0 : ackedForever m.id s := by
    refine ⟨List.mem_map.mpr ⟨m, hm, rfl⟩, ?_⟩
    intro x hx hxid
    have hxm : x = m :=
      List.inj_on_of_nodup_map hnd hx hm hxid
    rw [hxm]
    exact hack
  have hrun := runPreservesAcked m.id ops s hfresh h0
  intro r x hx hxid
  have hx1 : x ∈ (runState s ops).messages ∧ x.acknowledged = false := by
    unfold fetchPending at hx
    have h1 := List.mem_filter.mp hx
    have h2 := List.mem_filter.mp h1.1
    exact ⟨h2.1, by simpa using h1.2⟩
  have := hrun.2 x hx1.1 hxid
  rw [hx1.2] at this
  exact Bool.false_ne_true this

/-- C7 witness: starting from a store holding acknowledged `"m1"` and
pending `"m2"`, after publishing a fresh message `"m3"` and acknowledging
`"m2"`, the message `"m3"` found pending for `"bob"` does not have the
acknowledged id. -/
theorem C7_ack_permanent_witness :
    ({ id := "m3", recipient := "bob", content := "hi", timestamp := 1,
       acknowledged := false, sender := none, contractId := none }
      : Message).id ≠ sampleAckedMsg.id :=
  C7_ack_permanent
    ⟨[sampleAckedMsg, samplePendingMsg], [], []⟩
    [(1, .publishMessage "bob" "hi" none none none "m3" "e1" "c9"),
     (2, .ackMessage ["m2"])]
    sampleAckedMsg (by decide) (by decide) (by decide) (by decide)
    "bob"
    { id := "m3", recipient := "bob", content := "hi", timestamp := 1,
      acknowledged := false, sender := none, contractId := none }
    (by decide)

end AgentBridge

namespace AgentBridge

theorem find?_mark (msgs : List Message) (i j : String) :
    (msgs.map (fun x => if x.id = i then { x with acknowledged := true }
        else x)).find? (fun m => m.id == j) =
      (msgs.find? (fun m => m.id == j)).map
        (fun x => if x.id = i then { x with acknowledged := true }
          else x) := by
  induction msgs with
  | nil => rfl
  | cons a t ih =>
      by_cases ha : a.id = i
      · by_cases haj : a.id = j
        · have hij : i = j := by rw [← ha, haj]
          subst hij
          simp [List.find?, ha, haj, ih]
        · have hij : (i == j) = false := by
            rw [← ha]
            simp [haj]
          simp [List.find?, ha, haj, hij, ih]
      · by_cases haj : a.id = j
        · have hb : (a.id == j) = true := by simp [haj]
          have hji : ¬ j = i := by
            rw [← haj]
            exact ha
          simp [List.find?, ha, hb, hji, ih]
        · have hb : (a.id == j) = false := by simp [haj]
          simp [List.find?, ha, hb, ih]

theorem ackFold_count_spec (ids : List String) :
    ∀ (msgs : List Message) (n : Nat) (evs : List Ev),
      (msgs.map Message.id).Nodup →
      (ids.foldl ackStep (msgs, n, evs)).2.1 =
        n + (ids.toFinset.filter (fun i => pendingId msgs i = true)).card ∧
      (∀ m ∈ msgs,
        ((ids.foldl ackStep (msgs, n, evs)).2.2).count
            (Ev.messageAcknowledged m.id m.recipient) =
          evs.count (Ev.messageAcknowledged m.id m.recipient) +
            (if m.id ∈ ids ∧ m.acknowledged = false then 1 else 0)) := by
  induction ids with
  | nil =>
      intro msgs n evs hnd
      constructor
      · simp
      · intro m hm
        simp
  | cons i rest ih =>
      intro msgs n evs hnd
      rw [List.foldl_cons]
      cases hf : msgs.find? (fun m => m.id == i) with
      | none =>
          have hstep : ackStep (msgs, n, evs) i = (msgs, n, evs) := by
            simp [ackStep, hf]
          rw [hstep]
          obtain ⟨ihc, ihe⟩ := ih msgs n evs hnd
          have hp : pendingId msgs i = false := by simp [pendingId, hf]
          constructor
          · rw [ihc]
            congr 1
            rw [List.toFinset_cons, Finset.filter_insert,
              if_neg (by simp [hp])]
          · intro m hm
            rw [ihe m hm]
            by_cases hmid : m.id = i
            · exfalso
              have hne := List.find?_eq_none.mp hf m hm
              simp [hmid] at hne
            · have hcond : (m.id ∈ i :: rest ∧ m.acknowledged = false) =
                  (m.id ∈ rest ∧ m.acknowledged = false) := by
                simp [List.mem_cons, hmid]
              simp only [hcond]
      | some m0 =>
          cases hack : m0.acknowledged with
          | true =>
              have hstep : ackStep (msgs, n, evs) i = (msgs, n, evs) := by
                simp [ackStep, hf, hack]
              rw [hstep]
              obtain ⟨ihc, ihe⟩ := ih msgs n evs hnd
              have hp : pendingId msgs i = false := by
                simp [pendingId, hf, hack]
              have hid0 : m0.id = i := by
                simpa using List.find?_some hf
              have hm0mem : m0 ∈ msgs := List.mem_of_find?_eq_some hf
              constructor
              · rw [ihc]
                congr 1
                rw [List.toFinset_cons, Finset.filter_insert,
                  if_neg (by simp [hp])]
              · intro m hm
                rw [ihe m hm]
                by_cases hmid : m.id = i
                · have hmm0 : m = m0 :=
                    List.inj_on_of_nodup_map hnd hm hm0mem
                      (by rw [hmid, hid0])
                  have hmack : m.acknowledged = true := by
                    rw [hmm0]; exact hack
                  rw [if_neg (by simp [hmack]), if_neg (by simp [hmack])]
                · have hcond : (m.id ∈ i :: rest ∧ m.acknowledged = false) =
                      (m.id ∈ rest ∧ m.acknowledged = false) := by
                    simp [List.mem_cons, hmid]
                  simp only [hcond]
          | false =>
              have hid0 : m0.id = i := by
                simpa using List.find?_some hf
              have hm0mem : m0 ∈ msgs := List.mem_of_find?_eq_some hf
              have hstep : ackStep (msgs, n, evs) i =
                  (msgs.map (fun x =>
                    if x.id = i then { x with acknowledged := true }
                    else x), n + 1,
                   evs ++ [Ev.messageAcknowledged m0.id m0.recipient]) := by
                simp [ackStep, hf, hack]
              rw [hstep]
              have hnd1 : ((msgs.map (fun x =>
                  if x.id = i then { x with acknowledged := true }
                  else x)).map Message.id).Nodup := by
                rw [map_id_mark]
                exact hnd
              obtain ⟨ihc, ihe⟩ := ih _ (n + 1)
                (evs ++ [Ev.messageAcknowledged m0.id m0.recipient]) hnd1
              have hp : pendingId msgs i = true := by
                simp [pendingId, hf, hack]
              have hp1i : pendingId (msgs.map (fun x =>
                  if x.id = i then { x with acknowledged := true }
                  else x)) i = false := by
                unfold pendingId
                rw [find?_mark, hf]
                simp [hid0]
              have hp1 : ∀ j, j ≠ i → pendingId (msgs.map (fun x =>
                  if x.id = i then { x with acknowledged := true }
                  else x)) j = pendingId msgs j := by
                intro j hj
                unfold pendingId
                rw [find?_mark]
                cases hfj : msgs.find? (fun m => m.id == j) with
                | none => rfl
                | some mj =>
                    have hjid : mj.id = j := by
                      simpa using List.find?_some hfj
                    have hjne : mj.id ≠ i := by rw [hjid]; exact hj
                    simp [hjne]
              constructor
              · rw [ihc]
                have hsetq : (rest.toFinset.filter (fun j =>
                    pendingId (msgs.map (fun x =>
                      if x.id = i then { x with acknowledged := true }
                      else x)) j = true)) =
                    (rest.toFinset.filter (fun j =>
                      pendingId msgs j = true)).erase i := by
                  ext j
                  simp only [Finset.mem_filter, Finset.mem_erase]
                  constructor
                  · intro ⟨hjr, hjp⟩
                    by_cases hji : j = i
                    · rw [hji] at hjp
                      rw [hp1i] at hjp
                      exact absurd hjp (by simp)
                    · exact ⟨hji, hjr, by rw [← hp1 j hji]; exact hjp⟩
                  · intro ⟨hji, hjr, hjp⟩
                    exact ⟨hjr, by rw [hp1 j hji]; exact hjp⟩
                rw [hsetq]
                have hcard : ((i :: rest).toFinset.filter (fun j =>
                    pendingId msgs j = true)).card =
                    ((rest.toFinset.filter (fun j =>
                      pendingId msgs j = true)).erase i).card + 1 := by
                  rw [List.toFinset_cons, Finset.filter_insert, if_pos hp]
                  by_cases hmem : i ∈ rest.toFinset.filter (fun j =>
                      pendingId msgs j = true)
                  · rw [Finset.card_insert_of_mem hmem,
                      ← Finset.card_erase_add_one hmem]
                  · rw [Finset.card_insert_of_not_mem hmem,
                      Finset.erase_eq_of_not_mem hmem]
                rw [hcard]
                omega
              · intro m hm
                have hm' : (if m.id = i then { m with acknowledged := true }
                    else m) ∈ msgs.map (fun x =>
                      if x.id = i then { x with acknowledged := true }
                      else x) := List.mem_map_of_mem _ hm
                have hev := ihe _ hm'
                by_cases hmid : m.id = i
                · have hmm0 : m = m0 :=
                    List.inj_on_of_nodup_map hnd hm hm0mem
                      (by rw [hmid, hid0])
                  have hflip : (if m.id = i then
                      { m with acknowledged := true } else m) =
                      { m with acknowledged := true } := by simp [hmid]
                  rw [hflip] at hev
                  simp only [show ({ m with acknowledged := true }
                      : Message).id = m.id from rfl,
                    show ({ m with acknowledged := true }
                      : Message).recipient = m.recipient from rfl,
                    show ({ m with acknowledged := true }
                      : Message).acknowledged = true from rfl] at hev
                  rw [hev]
                  have hcnt : (evs ++
                      [Ev.messageAcknowledged m0.id m0.recipient]).count
                        (Ev.messageAcknowledged m.id m.recipient) =
                      evs.count (Ev.messageAcknowledged m.id m.recipient)
                        + 1 := by
                    rw [List.count_append]
                    rw [hmm0]
                    simp [List.count_singleton]
                  rw [hcnt]
                  have hmack : m.acknowledged = false := by
                    rw [hmm0]; exact hack
                  have hfalse : (m.id ∈ rest ∧ true = false) = False := by
                    simp
                  have htrue : (m.id ∈ i :: rest ∧ m.acknowledged = false) =
                      True := by
                    simp [hmack, List.mem_cons, hmid]
                  simp only [hfalse, htrue]
                  simp
                · have hflip : (if m.id = i then
                      { m with acknowledged := true } else m) = m := by
                    simp [hmid]
                  rw [hflip] at hev
                  rw [hev]
                  have hne0 : Ev.messageAcknowledged m.id m.recipient ≠
                      Ev.messageAcknowledged m0.id m0.recipient := by
                    intro hcontra
                    injection hcontra with h1 h2
                    rw [hid0] at h1
                    exact hmid h1
                  have hcnt : (evs ++
                      [Ev.messageAcknowledged m0.id m0.recipient]).count
                        (Ev.messageAcknowledged m.id m.recipient) =
                      evs.count (Ev.messageAcknowledged m.id m.recipient) := by
                    rw [List.count_append]
                    simp [List.count_singleton, hne0]
                  rw [hcnt]
                  have hcond : (m.id ∈ i :: rest ∧ m.acknowledged = false) =
                      (m.id ∈ rest ∧ m.acknowledged = false) := by
                    simp [List.mem_cons, hmid]
                  simp only [hcond]

/-- C10: acknowledging with duplicate ids in the list is idempotent per
message: the returned `acknowledgedCount` equals the number of distinct
ids in the list that refer to an existing, not-yet-acknowledged message,
and exactly one `message.acknowledged` event is emitted for each such
message (and none for the others). -/
theorem C10_ack_duplicates_once (msgs : List Message) (ids : List String)
    (hnd : (msgs.map Message.id).Nodup) :
    (ackMessages msgs ids).2.1 =
      (ids.toFinset.filter (fun i => pendingId msgs i = true)).card ∧
    ∀ m ∈ msgs,
      ((ackMessages msgs ids).2.2).count
          (Ev.messageAcknowledged m.id m.recipient) =
        if m.id ∈ ids ∧ m.acknowledged = false then 1 else 0 := by
  obtain ⟨h1, h2⟩ := ackFold_count_spec ids msgs 0 [] hnd
  refine ⟨by simpa using h1, ?_⟩
  intro m hm
  simpa using h2 m hm

/-- C10 witness: acknowledging `["m2", "m2", "zz", "m1"]` against a store
holding acknowledged `"m1"` and pending `"m2"` counts once and emits one
event for `"m2"`. -/
theorem C10_ack_duplicates_once_witness :
    (ackMessages [sampleAckedMsg, samplePendingMsg]
        ["m2", "m2", "zz", "m1"]).2.1 =
      ((["m2", "m2", "zz", "m1"] : List String).toFinset.filter
        (fun i => pendingId [sampleAckedMsg, samplePendingMsg] i
          = true)).card ∧
    ((ackMessages [sampleAckedMsg, samplePendingMsg]
        ["m2", "m2", "zz", "m1"]).2.2).count
        (Ev.messageAcknowledged samplePendingMsg.id
          samplePendingMsg.recipient) =
      if samplePendingMsg.id ∈ ["m2", "m2", "zz", "m1"] ∧
          samplePendingMsg.acknowledged = false then 1 else 0 :=
  ⟨(C10_ack_duplicates_once [sampleAckedMsg, samplePendingMsg]
      ["m2", "m2", "zz", "m1"] (by decide)).1,
   (C10_ack_duplicates_once [sampleAckedMsg, samplePendingMsg]
      ["m2", "m2", "zz", "m1"] (by decide)).2 samplePendingMsg (by decide)⟩

end AgentBridge
